import Mathlib

/-!
Shallow embedding of `bc_binance/importer.py` (a beancount importer for
Binance CSV files) and proofs about its lot-accounting core.

Conventions of the embedding:
* Python `Decimal` values (produced by `D(...)`) are modelled as `ℚ`;
  all arithmetic performed by the importer on them (`+`, `-`, `*`, `<`, `>`)
  is exact for decimals, so `ℚ` is faithful.
* Calendar dates are modelled as `ℕ` (only ordering on dates is used).
* Python exceptions (`raise`, `KeyError`, `IndexError`) are modelled with
  `Except String`: `.error` means the Python code raises at that point.
* Python dicts used as insertion-ordered maps are modelled as association
  lists with an update function that replaces the value in place when the
  key is present and appends otherwise (CPython dict semantics).
-/

namespace BcBinance

/-- `beancount.core.amount.Amount`: a decimal quantity plus a currency. -/
structure BcAmount where
  number : ℚ
  currency : String
deriving Repr, DecidableEq

/-- `beancount.core.data.Posting` as constructed by this importer:
`data.Posting(account, units, cost, price, flag, meta)`.  The importer always
passes `None` for cost, flag and meta, so only account, units and price are
kept. -/
structure Posting where
  account : String
  units : Option BcAmount
  price : Option BcAmount
deriving Repr, DecidableEq

/-- `beancount.core.data.Transaction` as constructed by this importer
(metadata, tags and links are always the same constants and are omitted). -/
structure Transaction where
  date : ℕ
  flag : String
  narration : String
  postings : List Posting
deriving Repr, DecidableEq

/-- A lot dict as stored in `self.lots`: keys `amount`, `amount_left`,
`price`, `base_asset`, `quote_asset`, `fill_date`. -/
structure Lot where
  amount : ℚ
  amount_left : ℚ
  price : Option ℚ
  base_asset : String
  quote_asset : Option String
  fill_date : ℕ
deriving Repr, DecidableEq

/-- The dict `{**lot, "amount_used": v}` returned by `satisfy_lots`: a copy
of the lot's fields (as they stand at copy time) plus `amount_used`. -/
structure Fragment where
  amount : ℚ
  amount_left : ℚ
  price : Option ℚ
  base_asset : String
  quote_asset : Option String
  fill_date : ℕ
  amount_used : ℚ
deriving Repr, DecidableEq

/-- Build the fragment `{**lot, "amount_used": used}`. -/
def mkFragment (lot : Lot) (used : ℚ) : Fragment :=
  { amount := lot.amount
    amount_left := lot.amount_left
    price := lot.price
    base_asset := lot.base_asset
    quote_asset := lot.quote_asset
    fill_date := lot.fill_date
    amount_used := used }

/-- `escape_asset_name(name)`: `if re.match(r"[0-9]", name[0]): return "XX" + name`.
`name[0]` raises `IndexError` on the empty string, modelled as `.error`. -/
def escape_asset_name (name : String) : Except String String :=
  match name.data with
  | [] => .error "IndexError: string index out of range"
  | c :: _ => if c.isDigit then .ok ("XX" ++ name) else .ok name

/-- The sort key comparator of `self.lots.sort(key=lambda l: l["fill_date"])`:
Python's stable sort orders lots by `fill_date` only. -/
def lotLE (a b : Lot) : Bool := a.fill_date ≤ b.fill_date

/-- `push_lot(lot)`: raise if `amount ≤ 0`; set `amount_left = amount`;
append; re-sort the pool by `fill_date` with Python's stable sort (modelled
by the stable `List.mergeSort`). -/
def push_lot (pool : List Lot) (amount : ℚ) (price : Option ℚ)
    (base_asset : String) (quote_asset : Option String) (fill_date : ℕ) :
    Except String (List Lot) :=
  if amount ≤ 0 then
    .error "Attempted to push negative amount to lot"
  else
    .ok (List.mergeSort
      (pool ++ [{ amount := amount, amount_left := amount, price := price,
                  base_asset := base_asset, quote_asset := quote_asset,
                  fill_date := fill_date }])
      lotLE)

/-- Eligibility test of `satisfy_lots`: the loop body `continue`s when
`lot["base_asset"] != base_asset or lot["fill_date"] > fill_date`. -/
def eligible (base_asset : String) (fill_date : ℕ) (lot : Lot) : Bool :=
  lot.base_asset == base_asset && lot.fill_date ≤ fill_date

/-- The loop of `satisfy_lots`, recursing over the pool in order.
Returns (found_lots, left_to_sell at exit, remaining pool). -/
def satisfyGo (base_asset : String) (fill_date : ℕ) :
    ℚ → List Lot → List Fragment × ℚ × List Lot
  | left_to_sell, [] => ([], left_to_sell, [])
  | left_to_sell, lot :: rest =>
    if eligible base_asset fill_date lot then
      if left_to_sell < lot.amount_left then
        -- `lot["amount_left"] -= left_to_sell` happens before the fragment
        -- copy, so the fragment carries the decremented `amount_left`.
        let lot' := { lot with amount_left := lot.amount_left - left_to_sell }
        ([mkFragment lot' left_to_sell], 0, lot' :: rest)
      else
        let frag := mkFragment lot lot.amount_left
        let left' := left_to_sell - lot.amount_left
        if left' = 0 then
          (frag :: [], 0, rest)
        else
          let r := satisfyGo base_asset fill_date left' rest
          (frag :: r.1, r.2.1, r.2.2)
    else
      let r := satisfyGo base_asset fill_date left_to_sell rest
      (r.1, r.2.1, lot :: r.2.2)

/-- `satisfy_lots(amount, base_asset, fill_date)` with the pool state made
explicit: returns the fragments found, the final `left_to_sell` (printed as
a warning by the Python code when positive) and the updated pool.  The
function never raises. -/
def satisfy_lots (pool : List Lot) (amount : ℚ) (base_asset : String)
    (fill_date : ℕ) : List Fragment × ℚ × List Lot :=
  satisfyGo base_asset fill_date amount pool

/-- Sum of `amount_used` over returned fragments. -/
def sumUsed (frags : List Fragment) : ℚ :=
  (frags.map Fragment.amount_used).sum

/-- Total eligible capacity of a pool: the sum of `amount_left` over lots
matching the asset and not dated after `fill_date`. -/
def eligCapacity (pool : List Lot) (base_asset : String) (fill_date : ℕ) : ℚ :=
  ((pool.filter (eligible base_asset fill_date)).map Lot.amount_left).sum

/-- The argument dict passed to `push_lot` (it carries no `amount_left`;
`push_lot` sets `amount_left = amount`). -/
structure PushReq where
  amount : ℚ
  price : Option ℚ
  base_asset : String
  quote_asset : Option String
  fill_date : ℕ
deriving Repr, DecidableEq

/-- The lot as stored by `push_lot` for a given request. -/
def reqLot (r : PushReq) : Lot :=
  { amount := r.amount, amount_left := r.amount, price := r.price,
    base_asset := r.base_asset, quote_asset := r.quote_asset,
    fill_date := r.fill_date }

/-- A sequence of `push_lot` calls; an exception aborts the sequence. -/
def pushAll (pool : List Lot) : List PushReq → Except String (List Lot)
  | [] => .ok pool
  | r :: rs =>
    match push_lot pool r.amount r.price r.base_asset r.quote_asset r.fill_date with
    | .error e => .error e
    | .ok pool' => pushAll pool' rs

/-- The filter-by-date predicate used to state tie stability. -/
def dateIs (d : ℕ) (lot : Lot) : Bool := lot.fill_date == d

/-- The two accounts passed to the `Importer` constructor. -/
structure Config where
  asset_account : String
  commission_account : String
deriving Repr, DecidableEq

/-- `lot_to_posting(lot)`: a consumption posting for a fragment.  Python's
`... if lot["price"] else None` treats both `None` and `Decimal(0)` as
falsy, so a zero price also yields no price annotation.  When a price is
present the importer's pushes always set `quote_asset` too; `getD ""`
covers the unexercised case where it is absent (Python would build an
`Amount` with a `None` currency). -/
def lot_to_posting (asset_account : String) (lot : Fragment) : Posting :=
  { account := asset_account
    units := some ⟨-lot.amount_used, lot.base_asset⟩
    price :=
      match lot.price with
      | some p => if p = 0 then none else some ⟨p, lot.quote_asset.getD ""⟩
      | none => none }

/-- A normalized statement row (`utc_time` already parsed to a date). -/
structure StmtRow where
  utc_time : ℕ
  account : String
  operation : String
  coin : String
  change : ℚ
  remark : String
deriving Repr, DecidableEq

/-- One leg of the `simpleTraded` buffer: `{"coin": ..., "amount": ...}`. -/
structure Leg where
  coin : String
  amount : ℚ
deriving Repr, DecidableEq

/-- The mutable state threaded through `extract_statement`'s loop. -/
structure StmtState where
  lots : List Lot
  entries : List Transaction
  last_date : Option ℕ
  exchangedToBNB : List (String × ℚ)
  simpleSource : Option Leg
  simpleTarget : Option Leg
deriving Repr, DecidableEq

/-- CPython dict assignment `m[k] = v` on an insertion-ordered dict:
replace in place when the key exists, append otherwise. -/
def dictUpdate (m : List (String × ℚ)) (k : String) (v : ℚ) :
    List (String × ℚ) :=
  match m with
  | [] => [(k, v)]
  | (k', v') :: rest =>
    if k' = k then (k', v) :: rest else (k', v') :: dictUpdate rest k v

/-- `"{} {} {} {}".format(account, operation, coin, remark).strip()`. -/
def mkNarration (account operation coin remark : String) : String :=
  (account ++ " " ++ operation ++ " " ++ coin ++ " " ++ remark).trim

/-- Per-row dispatch of `extract_statement` (the body of the
`if tx is not None` block).  Returns the new state and whether the row
`continue`d (skipping the flush section). -/
def stmt_dispatch (cfg : Config) (s : StmtState) (tx : StmtRow) :
    Except String (StmtState × Bool) :=
  match escape_asset_name tx.coin with
  | .error e => .error e
  | .ok coin =>
    let date := tx.utc_time
    let s := { s with last_date := some date }
    if tx.operation = "The Easiest Way to Trade" then
      if 0 ≤ tx.change then
        .ok ({ s with simpleTarget := some ⟨coin, tx.change⟩ }, true)
      else
        .ok ({ s with simpleSource := some ⟨coin, tx.change⟩ }, true)
    else if tx.operation = "Small assets exchange BNB" then
      .ok ({ s with exchangedToBNB := dictUpdate s.exchangedToBNB coin tx.change },
        true)
    else if tx.operation = "Distribution" then
      let basePostings : List Posting :=
        [{ account := cfg.asset_account, units := some ⟨tx.change, coin⟩,
           price := none },
         { account := if 0 < tx.change then "Income:Binance:Distribution"
             else "Expenses:Binance:Distribution",
           units := none, price := none }]
      let narr := mkNarration tx.account tx.operation coin tx.remark
      if 0 < tx.change then
        match push_lot s.lots tx.change none coin none date with
        | .error e => .error e
        | .ok lots' =>
          .ok ({ s with
                 lots := lots',
                 entries := s.entries ++
                   [{ date := date, flag := "*", narration := narr,
                      postings := basePostings }] }, false)
      else
        -- Negative distribution: the code passes the raw (negative) change
        -- to satisfy_lots.
        let r := satisfy_lots s.lots tx.change coin date
        .ok ({ s with
               lots := r.2.2,
               entries := s.entries ++
                 [{ date := date, flag := "*", narration := narr,
                    postings := basePostings ++
                      r.1.map (lot_to_posting cfg.asset_account) }] }, false)
    else if tx.operation = "Deposit" then
      let entry : Transaction :=
        { date := date, flag := "*",
          narration := mkNarration tx.account tx.operation coin tx.remark,
          postings :=
            [{ account := cfg.asset_account, units := some ⟨tx.change, coin⟩,
               price := none },
             { account := "Equity:Unknown", units := none, price := none }] }
      match push_lot s.lots tx.change none coin none date with
      | .error e => .error e
      | .ok lots' =>
        .ok ({ s with lots := lots', entries := s.entries ++ [entry] }, false)
    else
      .ok (s, false)

/-- The loop over `exchangedToBNB.items()` in the flush section: builds the
credit postings (BNB's inserted at index 1) and pushes the BNB lot. -/
def dustLoop (cfg : Config) (last_date : ℕ) :
    List (String × ℚ) → List Posting → List Lot →
    Except String (List Posting × List Lot)
  | [], postings, lots => .ok (postings, lots)
  | (coin, amt) :: rest, postings, lots =>
    let posting : Posting :=
      { account := cfg.asset_account, units := some ⟨amt, coin⟩, price := none }
    if coin = "BNB" then
      match push_lot lots amt none "BNB" none last_date with
      | .error e => .error e
      | .ok lots' =>
        dustLoop cfg last_date rest (postings.insertIdx 1 posting) lots'
    else
      dustLoop cfg last_date rest (postings ++ [posting]) lots

/-- The flush section run after each non-`continue` row and after the
sentinel: first the dust-conversion aggregate, then the simple-trade
buffer.  `len(simpleTraded) > 0` is true as soon as either leg is present,
and `itemgetter('source', 'target')` then raises `KeyError` if the other
leg is missing.  `last_date.getD 0` is only a placeholder: whenever either
aggregate is non-empty some row has set `last_date`. -/
def stmt_flush (cfg : Config) (s : StmtState) : Except String StmtState :=
  let afterDust : Except String StmtState :=
    if s.exchangedToBNB.isEmpty then .ok s
    else
      match dustLoop cfg (s.last_date.getD 0) s.exchangedToBNB
          [{ account := cfg.asset_account, units := none, price := none }]
          s.lots with
      | .error e => .error e
      | .ok (postings, lots') =>
        .ok { s with
              lots := lots',
              entries := s.entries ++
                [{ date := s.last_date.getD 0, flag := "*",
                   narration := "Small assets exchange into BNB",
                   postings := postings }],
              exchangedToBNB := [] }
  match afterDust with
  | .error e => .error e
  | .ok s1 =>
    if s1.simpleSource.isSome || s1.simpleTarget.isSome then
      match s1.simpleSource, s1.simpleTarget with
      | some source, some target =>
        -- Decimal division raises on a zero divisor.
        if target.amount = 0 then .error "DivisionByZero"
        else
          let cost := |source.amount| / target.amount
          let entry : Transaction :=
            { date := s1.last_date.getD 0, flag := "*",
              narration := "Manual exchange via simple interface",
              postings :=
                [{ account := cfg.asset_account,
                   units := some ⟨target.amount, target.coin⟩,
                   price := some ⟨cost, source.coin⟩ },
                 { account := cfg.asset_account,
                   units := some ⟨source.amount, source.coin⟩, price := none }] }
          match push_lot s1.lots target.amount (some cost) target.coin
              (some source.coin) (s1.last_date.getD 0) with
          | .error e => .error e
          | .ok lots' =>
            .ok { s1 with
                  lots := lots',
                  entries := s1.entries ++ [entry],
                  simpleSource := none,
                  simpleTarget := none }
      | none, _ => .error "KeyError: source"
      | some _, none => .error "KeyError: target"
    else .ok s1

/-- One iteration of `extract_statement`'s row loop (`none` is the
appended sentinel). -/
def stmt_step (cfg : Config) (s : StmtState) (otx : Option StmtRow) :
    Except String StmtState :=
  match otx with
  | none => stmt_flush cfg s
  | some tx =>
    match stmt_dispatch cfg s tx with
    | .error e => .error e
    | .ok (s', skip) => if skip then .ok s' else stmt_flush cfg s'

def stmt_run (cfg : Config) : StmtState → List (Option StmtRow) →
    Except String StmtState
  | s, [] => .ok s
  | s, otx :: rest =>
    match stmt_step cfg s otx with
    | .error e => .error e
    | .ok s' => stmt_run cfg s' rest

def initStmtState (lots : List Lot) : StmtState :=
  { lots := lots, entries := [], last_date := none, exchangedToBNB := [],
    simpleSource := none, simpleTarget := none }

/-- `extract_statement(transactions)`: append the `None` sentinel and run
the per-row loop; the pool `lots` is the importer's shared `self.lots`. -/
def extract_statement (cfg : Config) (lots : List Lot) (rows : List StmtRow) :
    Except String StmtState :=
  stmt_run cfg (initStmtState lots) (rows.map some ++ [none])

/-- A processed order/trade CSV row.  `fill_date_utc = none` models an
empty fill-date string (a Binance API gap); dates are already parsed;
`comm1 = none` models a row without the `comm1_amount` column. -/
structure OrderRow where
  date_utc : ℕ
  fill_date_utc : Option ℕ
  description : String
  base_asset : String
  quote_asset : String
  amount : ℚ
  price : ℚ
  comm0_amount : ℚ
  comm0_asset : String
  comm1 : Option (ℚ × String)
deriving Repr, DecidableEq

/-- `re.search(r"(buy|sell)$", description).group(0)`: the trailing token;
`.group(0)` on the failed (`None`) match raises `AttributeError` when the
description ends in neither word. -/
def tradeSide (description : String) : Except String String :=
  if "buy".data.isSuffixOf description.data then .ok "buy"
  else if "sell".data.isSuffixOf description.data then .ok "sell"
  else .error "AttributeError: NoneType object has no attribute group"

/-- The commission block of `extract_orders`: each positive commission
amount is satisfied from the pool and emits one consumption posting per
fragment; only the first commission leg is followed by a balancing
commission-account posting.  Returns the fee transaction, if any
commission was positive, and the updated pool. -/
def order_fees (cfg : Config) (lots0 : List Lot) (tx : OrderRow)
    (fill_date : ℕ) : List Transaction × List Lot :=
  let st1 : List Posting × List Lot × Bool :=
    if 0 < tx.comm0_amount then
      let r := satisfy_lots lots0 tx.comm0_amount tx.comm0_asset fill_date
      (r.1.map (lot_to_posting cfg.asset_account) ++
        [{ account := cfg.commission_account, units := none, price := none }],
       r.2.2, true)
    else ([], lots0, false)
  let st2 : List Posting × List Lot × Bool :=
    match tx.comm1 with
    | some (amt, asset) =>
      if 0 < amt then
        let r := satisfy_lots st1.2.1 amt asset fill_date
        (st1.1 ++ r.1.map (lot_to_posting cfg.asset_account), r.2.2, true)
      else st1
    | none => st1
  if st2.2.2 then
    ([{ date := fill_date, flag := "*",
        narration := tx.description ++ " fee", postings := st2.1 }],
     st2.2.1)
  else ([], st2.2.1)

/-- Processing of one row of `extract_orders`: the buy/sell transaction
plus the optional fee transaction, threading the shared lot pool. -/
def extract_order (cfg : Config) (lots0 : List Lot) (tx : OrderRow) :
    Except String (List Transaction × List Lot) :=
  match escape_asset_name tx.base_asset, escape_asset_name tx.quote_asset with
  | .error e, _ => .error e
  | .ok _, .error e => .error e
  | .ok base, .ok quote =>
    let fill_date := tx.fill_date_utc.getD tx.date_utc
    match tradeSide tx.description with
    | .error e => .error e
    | .ok side =>
      if side = "buy" then
        match push_lot lots0 tx.amount (some tx.price) base (some quote)
            fill_date with
        | .error e => .error e
        | .ok lots1 =>
          let trade : Transaction :=
            { date := fill_date, flag := "*", narration := tx.description,
              postings :=
                [{ account := cfg.asset_account,
                   units := some ⟨tx.amount, base⟩,
                   price := some ⟨tx.price, quote⟩ },
                 { account := cfg.asset_account,
                   units := some ⟨-(tx.amount * tx.price), quote⟩,
                   price := none }] }
          let fees := order_fees cfg lots1 tx fill_date
          .ok (trade :: fees.1, fees.2)
      else
        -- sell order
        let amount_obtained := tx.amount * tx.price
        let r := satisfy_lots lots0 tx.amount base fill_date
        let postings : List Posting :=
          r.1.map (fun lot =>
            { account := cfg.asset_account,
              units := some ⟨-lot.amount_used, lot.base_asset⟩,
              price := some ⟨tx.price, quote⟩ }) ++
          [{ account := cfg.asset_account,
             units := some ⟨amount_obtained, quote⟩,
             price := none }]
        match push_lot r.2.2 (tx.amount * tx.price) none quote none
            fill_date with
        | .error e => .error e
        | .ok lots1 =>
          let trade : Transaction :=
            { date := fill_date, flag := "*", narration := tx.description,
              postings := postings }
          let fees := order_fees cfg lots1 tx fill_date
          .ok (trade :: fees.1, fees.2)

/-- The row loop of `extract_orders` (rows already reversed into
chronological order by the caller side of the embedding). -/
def orders_run (cfg : Config) :
    List Transaction × List Lot → List OrderRow →
    Except String (List Transaction × List Lot)
  | acc, [] => .ok acc
  | (es, lots), tx :: rest =>
    match extract_order cfg lots tx with
    | .error e => .error e
    | .ok (es', lots') => orders_run cfg (es ++ es', lots') rest

/-- `extract_orders(transactions)`: flip into chronological order, then
process each row. -/
def extract_orders (cfg : Config) (lots : List Lot) (rows : List OrderRow) :
    Except String (List Transaction × List Lot) :=
  orders_run cfg ([], lots) rows.reverse

/- Basic facts about satisfyGo needed by several claims. -/

theorem eligCapacity_cons (b : String) (d : ℕ) (lot : Lot) (rest : List Lot) :
    eligCapacity (lot :: rest) b d =
      (if eligible b d lot then lot.amount_left else 0) + eligCapacity rest b d := by
  by_cases he : eligible b d lot <;>
    simp [eligCapacity, List.filter_cons, he]

/-- The pool invariant `0 < amount_left` survives any `satisfy_lots`
call, even one with a negative request: the split lot keeps
`amount_left - left_to_sell > 0` and fully used lots are removed. -/
theorem satisfyGo_amount_left_pos (base_asset : String) (fill_date : ℕ) :
    ∀ (left : ℚ) (pool : List Lot), (∀ l ∈ pool, 0 < l.amount_left) →
      ∀ l ∈ (satisfyGo base_asset fill_date left pool).2.2, 0 < l.amount_left
  | left, [], _ => by simp [satisfyGo]
  | left, lot :: rest, hpos => by
    have hlot : 0 < lot.amount_left := hpos lot (by simp)
    have hrest : ∀ l ∈ rest, 0 < l.amount_left := fun l hl =>
      hpos l (List.mem_cons_of_mem _ hl)
    by_cases he : eligible base_asset fill_date lot
    · by_cases hlt : left < lot.amount_left
      · intro l hl
        simp only [satisfyGo, if_pos he, if_pos hlt] at hl
        rcases List.mem_cons.mp hl with rfl | hl'
        · simpa using sub_pos.mpr hlt
        · exact hrest l hl'
      · by_cases hz : left - lot.amount_left = 0
        · intro l hl
          simp only [satisfyGo, if_pos he, if_neg hlt, if_pos hz] at hl
          exact hrest l hl
        · intro l hl
          simp only [satisfyGo, if_pos he, if_neg hlt, if_neg hz] at hl
          exact satisfyGo_amount_left_pos base_asset fill_date
            (left - lot.amount_left) rest hrest l hl
    · intro l hl
      simp only [satisfyGo, if_neg he] at hl
      rcases List.mem_cons.mp hl with rfl | hl'
      · exact hlot
      · exact satisfyGo_amount_left_pos base_asset fill_date left rest hrest
          l hl'

/-- The pool invariant `0 < amount_left` survives any successful
`push_lot`. -/
theorem push_lot_amount_left_pos (pool pool' : List Lot) (amount : ℚ)
    (price : Option ℚ) (base_asset : String) (quote_asset : Option String)
    (fill_date : ℕ)
    (h : push_lot pool amount price base_asset quote_asset fill_date =
      .ok pool')
    (hpos : ∀ l ∈ pool, 0 < l.amount_left) :
    ∀ l ∈ pool', 0 < l.amount_left := by
  unfold push_lot at h
  by_cases hle : amount ≤ 0
  · rw [if_pos hle] at h; cases h
  · rw [if_neg hle] at h
    injection h with h
    subst h
    intro l hl
    rw [List.mem_mergeSort, List.mem_append] at hl
    rcases hl with hl | hl
    · exact hpos l hl
    · rcases List.mem_singleton.mp hl with rfl
      simpa using not_le.mp hle

/-- The returned `left_to_sell` equals the requested amount minus the sum of
the `amount_used` fields of the returned fragments. -/
theorem satisfyGo_left_eq (base_asset : String) (fill_date : ℕ) :
    ∀ (left : ℚ) (pool : List Lot),
      (satisfyGo base_asset fill_date left pool).2.1 =
        left - sumUsed (satisfyGo base_asset fill_date left pool).1
  | left, [] => by simp [satisfyGo, sumUsed]
  | left, lot :: rest => by
    by_cases he : eligible base_asset fill_date lot
    · by_cases hlt : left < lot.amount_left
      · simp [satisfyGo, he, hlt, sumUsed, mkFragment]
      · by_cases hz : left - lot.amount_left = 0
        · simp [satisfyGo, he, hlt, hz, sumUsed, mkFragment]
        · have ih := satisfyGo_left_eq base_asset fill_date
            (left - lot.amount_left) rest
          simp only [satisfyGo, he, hlt, hz, if_true, if_false, ite_false,
            ite_true] at *
          simp [sumUsed, mkFragment] at ih ⊢
          rw [ih]; ring
    · have ih := satisfyGo_left_eq base_asset fill_date left rest
      simp [satisfyGo, he] at *
      exact ih

/-- If the request is non-negative, the returned `left_to_sell` is
non-negative. -/
theorem satisfyGo_left_nonneg (base_asset : String) (fill_date : ℕ) :
    ∀ (left : ℚ) (pool : List Lot), 0 ≤ left →
      0 ≤ (satisfyGo base_asset fill_date left pool).2.1
  | left, [], h => by simpa [satisfyGo] using h
  | left, lot :: rest, h => by
    by_cases he : eligible base_asset fill_date lot
    · by_cases hlt : left < lot.amount_left
      · simp [satisfyGo, he, hlt]
      · by_cases hz : left - lot.amount_left = 0
        · simp [satisfyGo, he, hlt, hz]
        · have hle : lot.amount_left ≤ left := not_lt.mp hlt
          have ih := satisfyGo_left_nonneg base_asset fill_date
            (left - lot.amount_left) rest (by linarith)
          simp only [satisfyGo, he, hlt, hz, if_true, ite_false, if_false] at *
          exact ih
    · have ih := satisfyGo_left_nonneg base_asset fill_date left rest h
      simpa [satisfyGo, he] using ih

/-- At exit either the request was fully met (`left_to_sell = 0`) or every
eligible lot was consumed in full, so the remainder is the request minus the
pool's whole eligible capacity. -/
theorem satisfyGo_left_zero_or_capacity (base_asset : String) (fill_date : ℕ) :
    ∀ (left : ℚ) (pool : List Lot),
      (satisfyGo base_asset fill_date left pool).2.1 = 0 ∨
      (satisfyGo base_asset fill_date left pool).2.1 =
        left - eligCapacity pool base_asset fill_date
  | left, [] => by simp [satisfyGo, eligCapacity]
  | left, lot :: rest => by
    rw [eligCapacity_cons]
    by_cases he : eligible base_asset fill_date lot
    · rw [if_pos he]
      by_cases hlt : left < lot.amount_left
      · left; simp [satisfyGo, he, hlt]
      · by_cases hz : left - lot.amount_left = 0
        · left; simp [satisfyGo, he, hlt, hz]
        · have ih := satisfyGo_left_zero_or_capacity base_asset fill_date
            (left - lot.amount_left) rest
          simp only [satisfyGo, if_pos he, if_neg hlt, if_neg hz]
          rcases ih with h | h
          · left; exact h
          · right; rw [h]; ring
    · rw [if_neg he]
      have ih := satisfyGo_left_zero_or_capacity base_asset fill_date left rest
      simp only [satisfyGo, if_neg he]
      rcases ih with h | h
      · left; exact h
      · right; rw [h]; ring

/-- C1 (counterexample to the claim as stated): `satisfy_lots` is invoked
with a negative `amount` by the negative-Distribution branch of
`extract_statement`; at the concrete call `satisfy(-3, "FOO", d)` on the
empty pool the sum of returned `amount_used` values (0) exceeds the
requested amount (-3), and the remainder is -3 even though the pool did
not lack eligible capacity (0 ≥ -3). -/
theorem C1_counterexample :
    (satisfy_lots [] (-3) "FOO" 0).1 = [] ∧
    (satisfy_lots [] (-3) "FOO" 0).2.1 = -3 ∧
    ¬ sumUsed (satisfy_lots [] (-3) "FOO" 0).1 ≤ (-3 : ℚ) ∧
    ¬ (((-3 : ℚ) ≤ eligCapacity [] "FOO" 0) →
        (satisfy_lots [] (-3) "FOO" 0).2.1 = 0) := by
  refine ⟨rfl, rfl, by norm_num [satisfy_lots, satisfyGo, sumUsed], ?_⟩
  intro h
  have := h (by norm_num [eligCapacity])
  norm_num [satisfy_lots, satisfyGo] at this

/-- C1 (amended: for every call with a non-negative `amount_needed`):
`satisfy_lots` raises no exception (it is a total function of the pool);
it returns the fragments actually found together with the final
`left_to_sell` remainder, where the remainder equals `amount_needed` minus
the sum of the returned `amount_used` values, that sum never exceeds
`amount_needed`, and the remainder is 0 unless the pool lacked eligible
capacity. -/
theorem C1_satisfy_spec (pool : List Lot) (need : ℚ) (base_asset : String)
    (fill_date : ℕ) (h : 0 ≤ need) :
    sumUsed (satisfy_lots pool need base_asset fill_date).1 ≤ need ∧
    (satisfy_lots pool need base_asset fill_date).2.1 =
      need - sumUsed (satisfy_lots pool need base_asset fill_date).1 ∧
    (need ≤ eligCapacity pool base_asset fill_date →
      (satisfy_lots pool need base_asset fill_date).2.1 = 0) := by
  simp only [satisfy_lots]
  have hleft := satisfyGo_left_eq base_asset fill_date need pool
  have hnn := satisfyGo_left_nonneg base_asset fill_date need pool h
  refine ⟨?_, hleft, ?_⟩
  · have h2 : (0:ℚ) ≤ need - sumUsed (satisfyGo base_asset fill_date need pool).1 := by
      rw [← hleft]; exact hnn
    linarith
  · intro hcap
    rcases satisfyGo_left_zero_or_capacity base_asset fill_date need pool with h0 | hc
    · exact h0
    · have h3 : (satisfyGo base_asset fill_date need pool).2.1 ≤ 0 := by
        rw [hc]; linarith
      linarith [hnn]

/-- Witness for C1: the empty pool asked for 5 FOO returns zero fragments
and an unsatisfied remainder of 5. -/
theorem C1_witness :
    (satisfy_lots [] 5 "FOO" 0).1 = [] ∧
    (satisfy_lots [] 5 "FOO" 0).2.1 = 5 ∧
    (sumUsed (satisfy_lots [] 5 "FOO" 0).1 ≤ 5 ∧
     (satisfy_lots [] 5 "FOO" 0).2.1 =
       5 - sumUsed (satisfy_lots [] 5 "FOO" 0).1 ∧
     ((5:ℚ) ≤ eligCapacity [] "FOO" 0 →
       (satisfy_lots [] 5 "FOO" 0).2.1 = 0)) :=
  ⟨rfl, rfl, C1_satisfy_spec [] 5 "FOO" 0 (by norm_num)⟩

/-- C9: on a pool whose lots all have positive `amount_left` (the pool
invariant) and which contains at least one eligible lot, a call with
`amount_needed = 0` returns exactly one fragment, with `amount_used = 0`,
taken from the oldest (first) eligible lot, and leaves the pool — in
particular that lot's `amount_left` — unchanged. -/
theorem C9_satisfy_zero (pool : List Lot) (base_asset : String)
    (fill_date : ℕ) (hpos : ∀ lot ∈ pool, 0 < lot.amount_left)
    (hex : ∃ lot ∈ pool, eligible base_asset fill_date lot = true) :
    ∃ lot, pool.find? (eligible base_asset fill_date) = some lot ∧
      satisfy_lots pool 0 base_asset fill_date = ([mkFragment lot 0], 0, pool) := by
  induction pool with
  | nil => simp at hex
  | cons lot rest ih =>
    by_cases he : eligible base_asset fill_date lot
    · refine ⟨lot, by simp [List.find?_cons, he], ?_⟩
      have h0 : (0:ℚ) < lot.amount_left := hpos lot (by simp)
      simp [satisfy_lots, satisfyGo, he, h0, mkFragment]
    · have hex' : ∃ l ∈ rest, eligible base_asset fill_date l = true := by
        rcases hex with ⟨l, hl, hel⟩
        rcases List.mem_cons.mp hl with rfl | hl'
        · exact absurd hel he
        · exact ⟨l, hl', hel⟩
      have hpos' : ∀ l ∈ rest, 0 < l.amount_left := fun l hl =>
        hpos l (List.mem_cons_of_mem _ hl)
      rcases ih hpos' hex' with ⟨l, hfind, hsat⟩
      refine ⟨l, by simp [List.find?_cons, he, hfind], ?_⟩
      simp only [satisfy_lots, satisfyGo, if_neg he] at hsat ⊢
      rw [hsat]

/-- Witness for C9: a pool with one open lot of 10 FOO asked for 0 FOO
returns one zero fragment from that lot and leaves the pool unchanged. -/
theorem C9_witness :
    ∃ lot, [Lot.mk 10 10 none "FOO" none 0].find?
        (eligible "FOO" 5) = some lot ∧
      satisfy_lots [Lot.mk 10 10 none "FOO" none 0] 0 "FOO" 5 =
        ([mkFragment lot 0], 0, [Lot.mk 10 10 none "FOO" none 0]) :=
  C9_satisfy_zero [Lot.mk 10 10 none "FOO" none 0] "FOO" 5
    (by intro lot hl; simp at hl; subst hl; norm_num)
    ⟨Lot.mk 10 10 none "FOO" none 0, by simp, by simp [eligible]⟩

/-- C8 (counterexample to the claim as stated): `escape_asset_name` is not
total — `name[0]` raises `IndexError` on the empty string. -/
theorem C8_counterexample :
    escape_asset_name "" = .error "IndexError: string index out of range" := rfl

/-- C8 (amended: total only on non-empty inputs): on every non-empty string
the normalizer returns the input prefixed with the fixed marker "XX" if and
only if the input's first character is a decimal digit, and returns the
input unchanged otherwise; on the empty string it raises. -/
theorem C8_escape_spec (s : String) (c : Char) (rest : List Char)
    (h : s.data = c :: rest) :
    (escape_asset_name s = .ok ("XX" ++ s) ↔ c.isDigit = true) ∧
    (c.isDigit = false → escape_asset_name s = .ok s) := by
  have hne : ("XX" ++ s : String) ≠ s := by
    intro heq
    have hlen := congrArg String.length heq
    rw [String.length_append] at hlen
    have h2 : ("XX" : String).length = 2 := rfl
    omega
  unfold escape_asset_name
  rw [h]
  constructor
  · by_cases hd : c.isDigit
    · simp [hd]
    · simp only [hd, Bool.false_eq_true, iff_false, if_false, ite_false]
      intro hok
      injection hok with h2
      exact hne h2.symm
  · intro hd
    simp [hd]

/-- Witness for C8: "1INCH" is prefixed (its first character is a digit),
"BNB" is returned unchanged. -/
theorem C8_witness :
    escape_asset_name "1INCH" = .ok "XX1INCH" ∧
    escape_asset_name "BNB" = .ok "BNB" ∧
    ((escape_asset_name "1INCH" = .ok ("XX" ++ "1INCH") ↔
        ('1').isDigit = true) ∧
      (('1').isDigit = false → escape_asset_name "1INCH" = .ok "1INCH")) :=
  ⟨rfl, rfl, C8_escape_spec "1INCH" '1' "INCH".data rfl⟩

theorem lotLE_trans : ∀ a b c : Lot, lotLE a b → lotLE b c → lotLE a c := by
  intro a b c hab hbc
  simp only [lotLE, decide_eq_true_eq] at *
  omega

theorem lotLE_total : ∀ a b : Lot, lotLE a b || lotLE b a := by
  intro a b
  simp only [lotLE, Bool.or_eq_true, decide_eq_true_eq]
  omega

/-- Stability of the pool sort for a date-homogeneous predicate: filtering
the sorted pool by any predicate that only selects mutually `lotLE`
elements gives the same list as filtering the unsorted pool. -/
theorem filter_mergeSort_eq (p : Lot → Bool) (l : List Lot)
    (hp : ∀ x y, p x → p y → lotLE x y) :
    (List.mergeSort l lotLE).filter p = l.filter p := by
  have hpair : (l.filter p).Pairwise (fun a b => lotLE a b) := by
    apply List.pairwise_of_forall_mem_list
    intro a ha b hb
    exact hp a b (List.of_mem_filter ha) (List.of_mem_filter hb)
  have hsub : List.Sublist (l.filter p) (List.mergeSort l lotLE) :=
    List.sublist_mergeSort lotLE_trans lotLE_total hpair (List.filter_sublist l)
  have hself : (l.filter p).filter p = l.filter p :=
    List.filter_eq_self.mpr fun a ha => List.of_mem_filter ha
  have h2 : List.Sublist (l.filter p) ((List.mergeSort l lotLE).filter p) := by
    have := hsub.filter p
    rwa [hself] at this
  have hperm : List.Perm ((List.mergeSort l lotLE).filter p) (l.filter p) :=
    (List.mergeSort_perm l lotLE).filter p
  exact (h2.eq_of_length hperm.length_eq.symm).symm

/-- Successful `push_lot` appends the new lot and stable-sorts by date. -/
theorem push_lot_ok (pool pool' : List Lot) (r : PushReq)
    (h : push_lot pool r.amount r.price r.base_asset r.quote_asset r.fill_date
        = .ok pool') :
    pool' = List.mergeSort (pool ++ [reqLot r]) lotLE := by
  unfold push_lot at h
  by_cases hle : r.amount ≤ 0
  · rw [if_pos hle] at h; cases h
  · rw [if_neg hle] at h
    injection h with h
    exact h.symm

/-- C7: after any sequence of push operations starting from a date-sorted
pool, the pool is sorted non-decreasing by `fill_date`, and the lots of any
given `fill_date` appear in insertion (push) order: they are exactly the
same-date lots of the starting pool followed by the same-date pushed lots
in push order. -/
theorem C7_push_sorted_stable (reqs : List PushReq) :
    ∀ (pool0 pool : List Lot), List.Pairwise (fun a b => lotLE a b) pool0 →
      pushAll pool0 reqs = .ok pool →
      List.Pairwise (fun a b => lotLE a b) pool ∧
      ∀ d : ℕ, pool.filter (dateIs d) =
        pool0.filter (dateIs d) ++ (reqs.map reqLot).filter (dateIs d) := by
  induction reqs with
  | nil =>
    intro pool0 pool hs h
    simp only [pushAll] at h
    injection h with h
    subst h
    exact ⟨hs, fun d => by simp⟩
  | cons r rs ih =>
    intro pool0 pool hs h
    simp only [pushAll] at h
    cases hp : push_lot pool0 r.amount r.price r.base_asset r.quote_asset
        r.fill_date with
    | error e => rw [hp] at h; cases h
    | ok pool1 =>
      rw [hp] at h
      have hpool1 : pool1 = List.mergeSort (pool0 ++ [reqLot r]) lotLE :=
        push_lot_ok pool0 pool1 r hp
      have hs1 : List.Pairwise (fun a b => lotLE a b) pool1 := by
        rw [hpool1]
        exact List.sorted_mergeSort lotLE_trans lotLE_total _
      obtain ⟨hsorted, hfil⟩ := ih pool1 pool hs1 h
      refine ⟨hsorted, fun d => ?_⟩
      have hstab : pool1.filter (dateIs d) =
          pool0.filter (dateIs d) ++ [reqLot r].filter (dateIs d) := by
        rw [hpool1,
          filter_mergeSort_eq (dateIs d) (pool0 ++ [reqLot r])
            (fun x y hx hy => by
              simp only [dateIs, beq_iff_eq] at hx hy
              simp only [lotLE, hx, hy, decide_eq_true_eq, le_refl]),
          List.filter_append]
      rw [hfil d, hstab, List.map_cons, List.filter_cons, List.append_assoc]
      by_cases hd : dateIs d (reqLot r) <;> simp [hd]

/-- Witness for C7: pushing lots dated 3, 5, 5 into the empty pool yields a
date-sorted pool in which the two date-5 lots appear in push order. -/
theorem C7_witness :
    List.Pairwise (fun a b => lotLE a b)
      [reqLot (PushReq.mk 1 none "A" none 3), reqLot (PushReq.mk 2 none "B" none 5),
        reqLot (PushReq.mk 3 none "C" none 5)] ∧
    ∀ d : ℕ,
      ([reqLot (PushReq.mk 1 none "A" none 3), reqLot (PushReq.mk 2 none "B" none 5),
          reqLot (PushReq.mk 3 none "C" none 5)].filter (dateIs d)) =
        ([] : List Lot).filter (dateIs d) ++
          (([PushReq.mk 1 none "A" none 3, PushReq.mk 2 none "B" none 5,
              PushReq.mk 3 none "C" none 5].map reqLot).filter (dateIs d)) := by
  apply C7_push_sorted_stable
  · exact List.Pairwise.nil
  · have p1 : push_lot [] (1:ℚ) none "A" none 3 =
        .ok [reqLot (PushReq.mk 1 none "A" none 3)] := by
      unfold push_lot
      rw [if_neg (by norm_num)]
      simp [reqLot]
    have p2 : push_lot [reqLot (PushReq.mk 1 none "A" none 3)] (2:ℚ) none "B"
        none 5 = .ok [reqLot (PushReq.mk 1 none "A" none 3),
          reqLot (PushReq.mk 2 none "B" none 5)] := by
      unfold push_lot
      rw [if_neg (by norm_num)]
      congr 1
      exact List.mergeSort_of_sorted (by simp [reqLot, lotLE])
    have p3 : push_lot [reqLot (PushReq.mk 1 none "A" none 3),
          reqLot (PushReq.mk 2 none "B" none 5)] (3:ℚ) none "C" none 5 =
        .ok [reqLot (PushReq.mk 1 none "A" none 3),
          reqLot (PushReq.mk 2 none "B" none 5),
          reqLot (PushReq.mk 3 none "C" none 5)] := by
      unfold push_lot
      rw [if_neg (by norm_num)]
      congr 1
      exact List.mergeSort_of_sorted
        (by simp [reqLot, lotLE, List.pairwise_cons])
    simp only [pushAll, p1, p2, p3]

theorem dictUpdate_lookup (k : String) (v : ℚ) :
    ∀ m : List (String × ℚ), (dictUpdate m k v).lookup k = some v := by
  intro m
  induction m with
  | nil => simp [dictUpdate, List.lookup]
  | cons kv rest ih =>
    obtain ⟨k', v'⟩ := kv
    by_cases h : k' = k
    · subst h; simp [dictUpdate, List.lookup]
    · simp only [dictUpdate, if_neg h, List.lookup]
      have : (k == k') = false := by
        simp [beq_eq_false_iff_ne]
        exact fun hk => h hk.symm
      rw [this]
      exact ih

/-- C4 (counterexample to the claim as stated): two consecutive dust rows
for the same asset `X` with changes 1 and 2 flush into a posting of 2
(the later row's change), not of the sum 3 — the dict assignment
`exchangedToBNB[coin] = change` overwrites instead of accumulating. -/
theorem C4_counterexample :
    extract_statement ⟨"Assets:Binance", "Expenses:Binance:Commission"⟩ []
      [⟨1, "Spot", "Small assets exchange BNB", "X", 1, ""⟩,
        ⟨2, "Spot", "Small assets exchange BNB", "X", 2, ""⟩] =
      .ok { lots := [],
            entries := [{ date := 2,
                          flag := "*",
                          narration := "Small assets exchange into BNB",
                          postings := [⟨"Assets:Binance", none, none⟩,
                            ⟨"Assets:Binance", some ⟨2, "X"⟩, none⟩] }],
            last_date := some 2,
            exchangedToBNB := [],
            simpleSource := none,
            simpleTarget := none } ∧
    (2 : ℚ) ≠ 1 + 2 := by
  constructor
  · rfl
  · norm_num

/-- C4 (amended): a "small-assets-exchange" row stores its `change` into
the dust map entry keyed by the row's asset by dict assignment, replacing
any previously accumulated value for that asset (so two consecutive dust
rows for the same asset contribute only the later row's change at flush
time); entries for other assets are left in place. -/
theorem C4_dust_overwrite (cfg : Config) (s : StmtState) (tx : StmtRow)
    (coin : String) (hop : tx.operation = "Small assets exchange BNB")
    (hcoin : escape_asset_name tx.coin = .ok coin) :
    stmt_dispatch cfg s tx = .ok
      ({ s with
         last_date := some tx.utc_time,
         exchangedToBNB := dictUpdate s.exchangedToBNB coin tx.change }, true) ∧
    (dictUpdate s.exchangedToBNB coin tx.change).lookup coin =
      some tx.change := by
  constructor
  · simp only [stmt_dispatch, hcoin, hop, String.reduceEq, if_false, if_true,
      ite_false, ite_true]
  · exact dictUpdate_lookup coin tx.change s.exchangedToBNB

/-- Witness for C4 (amended): a dust row for asset `X` with change 2
dispatched against a state whose map already holds `X ↦ 1` yields the map
`X ↦ 2`. -/
theorem C4_witness :
    stmt_dispatch ⟨"Assets:Binance", "C"⟩
      { lots := [], entries := [], last_date := some 1,
        exchangedToBNB := [("X", 1)], simpleSource := none,
        simpleTarget := none }
      ⟨2, "Spot", "Small assets exchange BNB", "X", 2, ""⟩ = .ok
      ({ lots := [], entries := [], last_date := some 2,
         exchangedToBNB := dictUpdate [("X", 1)] "X" 2, simpleSource := none,
         simpleTarget := none }, true) ∧
    (dictUpdate [("X", 1)] "X" 2).lookup "X" = some 2 :=
  C4_dust_overwrite ⟨"Assets:Binance", "C"⟩
    { lots := [], entries := [], last_date := some 1,
      exchangedToBNB := [("X", 1)], simpleSource := none,
      simpleTarget := none }
    ⟨2, "Spot", "Small assets exchange BNB", "X", 2, ""⟩ "X" rfl rfl

/-- C5 (counterexample to the claim as stated): a lone simple-trade source
leg followed by the terminating sentinel makes the flush destructure both
legs of a one-legged buffer, raising `KeyError` — processing does not
continue without error. -/
theorem C5_counterexample :
    extract_statement ⟨"Assets:Binance", "C"⟩ []
      [⟨1, "Spot", "The Easiest Way to Trade", "ETH", -5, ""⟩] =
      .error "KeyError: target" := rfl

/-- C5 (amended): the pending simple-trade buffer is flushed into a
transaction only when both legs are populated; if exactly one leg is
pending when a row of any other kind (or the terminating sentinel) is
dispatched, the flush raises a `KeyError` (so no simple-trade transaction
is emitted and the run aborts instead of continuing). -/
theorem C5_one_leg_flush_raises (cfg : Config) (s : StmtState)
    (hdust : s.exchangedToBNB = [])
    (hleg : s.simpleSource.isSome ≠ s.simpleTarget.isSome) :
    (∃ e, stmt_flush cfg s = .error e) ∧
    ∀ st : StmtState, stmt_flush cfg s ≠ .ok st := by
  have hde : s.exchangedToBNB.isEmpty = true := by rw [hdust]; rfl
  cases hsrc : s.simpleSource with
  | none =>
    cases htgt : s.simpleTarget with
    | none => rw [hsrc, htgt] at hleg; simp at hleg
    | some target =>
      constructor
      · exact ⟨"KeyError: source", by simp [stmt_flush, hde, hsrc, htgt]⟩
      · intro st h
        simp [stmt_flush, hde, hsrc, htgt] at h
  | some source =>
    cases htgt : s.simpleTarget with
    | none =>
      constructor
      · exact ⟨"KeyError: target", by simp [stmt_flush, hde, hsrc, htgt]⟩
      · intro st h
        simp [stmt_flush, hde, hsrc, htgt] at h
    | some target => rw [hsrc, htgt] at hleg; simp at hleg

/-- Witness for C5: a state holding only a source leg (and no dust) makes
the flush raise. -/
theorem C5_witness :
    (∃ e, stmt_flush ⟨"Assets:Binance", "C"⟩
      { lots := [], entries := [], last_date := some 1,
        exchangedToBNB := [], simpleSource := some ⟨"ETH", -5⟩,
        simpleTarget := none } = .error e) ∧
    ∀ st : StmtState, stmt_flush ⟨"Assets:Binance", "C"⟩
      { lots := [], entries := [], last_date := some 1,
        exchangedToBNB := [], simpleSource := some ⟨"ETH", -5⟩,
        simpleTarget := none } ≠ .ok st :=
  C5_one_leg_flush_raises ⟨"Assets:Binance", "C"⟩
    { lots := [], entries := [], last_date := some 1,
      exchangedToBNB := [], simpleSource := some ⟨"ETH", -5⟩,
      simpleTarget := none } rfl (by simp)

/-- C2 (code bug): on a statement row `Distribution FOO -3` with one open
lot of 10 FOO, the code passes the raw negative change to `satisfy_lots`
instead of `|change|`: the matcher returns a single fragment with
`amount_used = -3`, the per-fragment posting is `+3 FOO` (not a
consumption), and the lot's `amount_left` grows to 13. -/
theorem C2_code_bug_eval :
    (satisfy_lots [Lot.mk 10 10 none "FOO" none 0] (-3) "FOO" 1).1 =
      [mkFragment (Lot.mk 10 13 none "FOO" none 0) (-3)] ∧
    ∃ st, extract_statement ⟨"Assets:Binance", "C"⟩
        [Lot.mk 10 10 none "FOO" none 0]
        [⟨1, "Spot", "Distribution", "FOO", -3, ""⟩] = .ok st ∧
      st.entries.map Transaction.postings =
        [[⟨"Assets:Binance", some ⟨-3, "FOO"⟩, none⟩,
          ⟨"Expenses:Binance:Distribution", none, none⟩,
          ⟨"Assets:Binance", some ⟨3, "FOO"⟩, none⟩]] ∧
      st.lots = [Lot.mk 10 13 none "FOO" none 0] := by
  constructor
  · norm_num [satisfy_lots, satisfyGo, eligible, mkFragment]
  · refine ⟨_, rfl, ?_, ?_⟩
    · norm_num [extract_statement, stmt_run, stmt_step, stmt_dispatch,
        stmt_flush, initStmtState, satisfy_lots, satisfyGo, eligible,
        mkFragment, lot_to_posting, escape_asset_name]
    · norm_num [extract_statement, stmt_run, stmt_step, stmt_dispatch,
        stmt_flush, initStmtState, satisfy_lots, satisfyGo, eligible,
        mkFragment]

/-- C3 (code bug): after the run consisting of that single negative
Distribution row against a pool holding one lot of 10 FOO, the pool
contains a lot with `amount_left = 13 > amount = 10`, violating the
claimed invariant `amount_left ≤ amount`. -/
theorem C3_code_bug_eval :
    ∃ st, extract_statement ⟨"Assets:Binance", "C"⟩
        [Lot.mk 10 10 none "FOO" none 0]
        [⟨1, "Spot", "Distribution", "FOO", -3, ""⟩] = .ok st ∧
      st.lots = [Lot.mk 10 13 none "FOO" none 0] ∧
      ∃ lot ∈ st.lots, lot.amount < lot.amount_left := by
  refine ⟨_, rfl, ?_, ?_⟩
  · norm_num [extract_statement, stmt_run, stmt_step, stmt_dispatch,
      stmt_flush, initStmtState, satisfy_lots, satisfyGo, eligible,
      mkFragment]
  · refine ⟨Lot.mk 10 13 none "FOO" none 0, ?_, by norm_num⟩
    norm_num [extract_statement, stmt_run, stmt_step, stmt_dispatch,
      stmt_flush, initStmtState, satisfy_lots, satisfyGo, eligible,
      mkFragment]

/-- Shape of the dust-flush posting loop: starting from a non-empty
accumulator it keeps the head posting in place, adds one posting per map
entry (BNB's via `insert(1)`, the rest appended), every added posting
carrying an amount. -/
theorem dustLoop_shape (cfg : Config) (d : ℕ) :
    ∀ (m : List (String × ℚ)) (hd : Posting) (tl : List Posting)
      (lots : List Lot) (ps : List Posting) (lots' : List Lot),
      dustLoop cfg d m (hd :: tl) lots = .ok (ps, lots') →
      ∃ tl', ps = hd :: tl' ∧ tl'.length = tl.length + m.length ∧
        ∀ p ∈ tl', p ∈ tl ∨ p.units.isSome
  | [], hd, tl, lots, ps, lots' => by
    intro he
    simp only [dustLoop] at he
    injection he with he
    obtain ⟨he1, he2⟩ := Prod.mk.injEq .. ▸ he
    exact ⟨tl, he1.symm, by simp, fun p hp => Or.inl hp⟩
  | (coin, amt) :: rest, hd, tl, lots, ps, lots' => by
    intro he
    simp only [dustLoop] at he
    have hunits : ({ account := cfg.asset_account,
                     units := some ⟨amt, coin⟩,
                     price := none } : Posting).units.isSome = true := rfl
    by_cases hb : coin = "BNB"
    · rw [if_pos hb] at he
      cases hpush : push_lot lots amt none "BNB" none d with
      | error e => rw [hpush] at he; cases he
      | ok lots1 =>
        rw [hpush] at he
        have hins : (hd :: tl).insertIdx 1
            ({ account := cfg.asset_account,
               units := some ⟨amt, coin⟩,
               price := none } : Posting) =
            hd :: ({ account := cfg.asset_account,
                     units := some ⟨amt, coin⟩,
                     price := none } : Posting) :: tl := rfl
        rw [hins] at he
        obtain ⟨tl', h1, h2, h3⟩ :=
          dustLoop_shape cfg d rest hd _ lots1 ps lots' he
        refine ⟨tl', h1, by simp at h2 ⊢; omega, fun p hp => ?_⟩
        rcases h3 p hp with hmem | hsome
        · rcases List.mem_cons.mp hmem with rfl | hmem'
          · exact Or.inr hunits
          · exact Or.inl hmem'
        · exact Or.inr hsome
    · rw [if_neg hb, List.cons_append] at he
      obtain ⟨tl', h1, h2, h3⟩ :=
        dustLoop_shape cfg d rest hd _ lots ps lots' he
      refine ⟨tl', h1, by simp at h2 ⊢; omega, fun p hp => ?_⟩
      rcases h3 p hp with hmem | hsome
      · rcases List.mem_append.mp hmem with hmem' | hx
        · exact Or.inl hmem'
        · rcases List.mem_singleton.mp hx with rfl
          exact Or.inr hunits
      · exact Or.inr hsome

/-- C10: every dust-conversion flush transaction begins with a posting on
the asset account carrying no amount, placed before all per-asset credit
postings (every later posting carries an amount); a flush of n accumulated
assets yields n + 1 postings. -/
theorem C10_dust_flush (cfg : Config) (s st : StmtState)
    (hne : s.exchangedToBNB ≠ [])
    (h : stmt_flush cfg s = .ok st) :
    ∃ t rest, st.entries = s.entries ++ t :: rest ∧
      t.postings.length = s.exchangedToBNB.length + 1 ∧
      t.postings.head? = some ⟨cfg.asset_account, none, none⟩ ∧
      ∀ p ∈ t.postings.tail, p.units.isSome := by
  have hde : s.exchangedToBNB.isEmpty = false := by
    cases hm : s.exchangedToBNB with
    | nil => exact absurd hm hne
    | cons a b => rfl
  unfold stmt_flush at h
  rw [if_neg (by rw [hde]; exact Bool.false_ne_true)] at h
  cases hdl : dustLoop cfg (s.last_date.getD 0) s.exchangedToBNB
      [{ account := cfg.asset_account, units := none, price := none }]
      s.lots with
  | error e => rw [hdl] at h; cases h
  | ok pr =>
    obtain ⟨postings, lots'⟩ := pr
    rw [hdl] at h
    obtain ⟨tl', hps, hlen, hmem⟩ :=
      dustLoop_shape cfg (s.last_date.getD 0) s.exchangedToBNB
        { account := cfg.asset_account, units := none, price := none } []
        s.lots postings lots' hdl
    set dustTxn : Transaction :=
      { date := s.last_date.getD 0, flag := "*",
        narration := "Small assets exchange into BNB",
        postings := postings } with hdt
    have hshape : dustTxn.postings.length = s.exchangedToBNB.length + 1 ∧
        dustTxn.postings.head? =
          some ⟨cfg.asset_account, none, none⟩ ∧
        ∀ p ∈ dustTxn.postings.tail, p.units.isSome := by
      refine ⟨?_, ?_, ?_⟩
      · rw [hdt]; simp only [hps]; simp at hlen ⊢; omega
      · rw [hdt]; simp only [hps]; rfl
      · rw [hdt]; simp only [hps, List.tail_cons]
        intro p hp
        rcases hmem p hp with hx | hsome
        · simp at hx
        · exact hsome
    -- Now the simple-trade stage of the flush.
    simp only at h
    by_cases hleg : (s.simpleSource.isSome || s.simpleTarget.isSome) = true
    · rw [if_pos hleg] at h
      cases hsrc : s.simpleSource with
      | none =>
        cases htgt : s.simpleTarget with
        | none => rw [hsrc, htgt] at hleg; simp at hleg
        | some target => simp only [hsrc, htgt] at h; cases h
      | some source =>
        cases htgt : s.simpleTarget with
        | none => simp only [hsrc, htgt] at h; cases h
        | some target =>
          simp only [hsrc, htgt] at h
          by_cases hz : target.amount = 0
          · rw [if_pos hz] at h; cases h
          · rw [if_neg hz] at h
            cases hpush : push_lot lots' target.amount
                (some (|source.amount| / target.amount)) target.coin
                (some source.coin) (s.last_date.getD 0) with
            | error e => rw [hpush] at h; cases h
            | ok lots2 =>
              rw [hpush] at h
              injection h with h
              subst h
              refine ⟨dustTxn,
                [{ date := s.last_date.getD 0,
                   flag := "*",
                   narration := "Manual exchange via simple interface",
                   postings :=
                     [{ account := cfg.asset_account,
                        units := some ⟨target.amount, target.coin⟩,
                        price := some ⟨|source.amount| / target.amount,
                          source.coin⟩ },
                      { account := cfg.asset_account,
                        units := some ⟨source.amount, source.coin⟩,
                        price := none }] }],
                ?_, hshape.1, hshape.2.1, hshape.2.2⟩
              show ((s.entries ++ [dustTxn]) ++ _) = _
              rw [List.append_assoc]
              rfl
    · rw [if_neg hleg] at h
      injection h with h
      subst h
      exact ⟨dustTxn, [], by simp, hshape.1, hshape.2.1, hshape.2.2⟩

/-- Witness for C10: flushing a one-entry dust map yields a transaction of
2 postings whose first posting is the amountless asset-account posting. -/
theorem C10_witness :
    ∃ t rest,
      [Transaction.mk 1 "*" "Small assets exchange into BNB"
          [⟨"Assets:Binance", none, none⟩,
            ⟨"Assets:Binance", some ⟨2, "XYZ"⟩, none⟩]] =
        ([] : List Transaction) ++ t :: rest ∧
      t.postings.length = [("XYZ", (2:ℚ))].length + 1 ∧
      t.postings.head? = some ⟨"Assets:Binance", none, none⟩ ∧
      ∀ p ∈ t.postings.tail, p.units.isSome :=
  C10_dust_flush ⟨"Assets:Binance", "C"⟩
    (StmtState.mk [] [] (some 1) [("XYZ", 2)] none none)
    (StmtState.mk []
      [Transaction.mk 1 "*" "Small assets exchange into BNB"
        [⟨"Assets:Binance", none, none⟩,
          ⟨"Assets:Binance", some ⟨2, "XYZ"⟩, none⟩]]
      (some 1) [] none none)
    (by simp) rfl

/-- C6 (counterexample to the claim as stated): a sell record of amount 0
at price 3 does not push a lot of `amount*price = 0` — `push_lot` raises on
a non-positive amount and the whole row processing aborts with an
exception instead of emitting the transaction. -/
theorem C6_counterexample :
    extract_order ⟨"Assets:Binance", "Expenses:Binance:Commission"⟩ []
      ⟨1, some 1, "FOOBAR market sell", "FOO", "BAR", 0, 3, 0, "FOO", none⟩ =
      .error "Attempted to push negative amount to lot" := by
  simp +decide [extract_order, tradeSide, escape_asset_name, push_lot,
    satisfy_lots, satisfyGo, order_fees, List.isSuffixOf, zero_mul]

/-- C6 (amended: for every sell-side trade-fill record whose asset symbols
are accepted by the normalizer and with `amount * price > 0`): the
synthesizer calls the Matcher for `amount` of base_asset as of the fill
date, emits one posting of `-fragment.amount_used` of the fragment's
base_asset per returned fragment annotated with the trade price in
quote_asset, emits one posting of `+amount*price` of quote_asset, and
pushes a new lot of `amount*price` of quote_asset with price and
quote_asset absent, dated at the fill date (records with
`amount * price ≤ 0` instead abort with a push error). -/
theorem C6_sell_spec (cfg : Config) (lots0 : List Lot) (tx : OrderRow)
    (base quote : String)
    (hb : escape_asset_name tx.base_asset = .ok base)
    (hq : escape_asset_name tx.quote_asset = .ok quote)
    (hside : tradeSide tx.description = .ok "sell")
    (hpos : 0 < tx.amount * tx.price) :
    ∃ lots1,
      push_lot (satisfy_lots lots0 tx.amount base
          (tx.fill_date_utc.getD tx.date_utc)).2.2
        (tx.amount * tx.price) none quote none
        (tx.fill_date_utc.getD tx.date_utc) = .ok lots1 ∧
      extract_order cfg lots0 tx = .ok
        (({ date := tx.fill_date_utc.getD tx.date_utc,
            flag := "*",
            narration := tx.description,
            postings :=
              (satisfy_lots lots0 tx.amount base
                  (tx.fill_date_utc.getD tx.date_utc)).1.map
                (fun lot =>
                  { account := cfg.asset_account,
                    units := some ⟨-lot.amount_used, lot.base_asset⟩,
                    price := some ⟨tx.price, quote⟩ }) ++
              [{ account := cfg.asset_account,
                 units := some ⟨tx.amount * tx.price, quote⟩,
                 price := none }] } : Transaction) ::
          (order_fees cfg lots1 tx (tx.fill_date_utc.getD tx.date_utc)).1,
          (order_fees cfg lots1 tx (tx.fill_date_utc.getD tx.date_utc)).2) := by
  have hnle : ¬ (tx.amount * tx.price ≤ 0) := not_le.mpr hpos
  have hpush : push_lot (satisfy_lots lots0 tx.amount base
        (tx.fill_date_utc.getD tx.date_utc)).2.2
      (tx.amount * tx.price) none quote none
      (tx.fill_date_utc.getD tx.date_utc) = .ok
        (List.mergeSort
          ((satisfy_lots lots0 tx.amount base
              (tx.fill_date_utc.getD tx.date_utc)).2.2 ++
            [{ amount := tx.amount * tx.price,
               amount_left := tx.amount * tx.price,
               price := none, base_asset := quote, quote_asset := none,
               fill_date := tx.fill_date_utc.getD tx.date_utc }])
          lotLE) := by
    unfold push_lot
    rw [if_neg hnle]
  refine ⟨_, hpush, ?_⟩
  have hsell : tradeSide tx.description = .ok "sell" := hside
  simp only [extract_order, hb, hq, hsell, hpush, String.reduceEq, if_false,
    ite_false, Bool.false_eq_true]

/-- Witness for C6: with one open lot of 10 FOO (date 0), selling 4 FOO at
price 3 BAR on date 1 yields the claimed transaction shape, leaves the lot
with `amount_left = 6`, and pushes a new lot of 12 BAR with no price. -/
theorem C6_witness :
    (∃ lots1,
      push_lot (satisfy_lots [Lot.mk 10 10 none "FOO" none 0] 4 "FOO"
          ((some 1 : Option ℕ).getD 1)).2.2
        ((4 : ℚ) * 3) none "BAR" none ((some 1 : Option ℕ).getD 1) =
        .ok lots1 ∧
      extract_order ⟨"Assets:Binance", "Expenses:Binance:Commission"⟩
        [Lot.mk 10 10 none "FOO" none 0]
        ⟨1, some 1, "FOOBAR market sell", "FOO", "BAR", 4, 3, 0, "FOO",
          none⟩ = .ok
        (({ date := (some 1 : Option ℕ).getD 1,
            flag := "*",
            narration := "FOOBAR market sell",
            postings :=
              (satisfy_lots [Lot.mk 10 10 none "FOO" none 0] 4 "FOO"
                  ((some 1 : Option ℕ).getD 1)).1.map
                (fun lot =>
                  { account := "Assets:Binance",
                    units := some ⟨-lot.amount_used, lot.base_asset⟩,
                    price := some ⟨(3 : ℚ), "BAR"⟩ }) ++
              [{ account := "Assets:Binance",
                 units := some ⟨(4 : ℚ) * 3, "BAR"⟩,
                 price := none }] } : Transaction) ::
          (order_fees ⟨"Assets:Binance", "Expenses:Binance:Commission"⟩ lots1
            ⟨1, some 1, "FOOBAR market sell", "FOO", "BAR", 4, 3, 0, "FOO",
              none⟩ ((some 1 : Option ℕ).getD 1)).1,
          (order_fees ⟨"Assets:Binance", "Expenses:Binance:Commission"⟩ lots1
            ⟨1, some 1, "FOOBAR market sell", "FOO", "BAR", 4, 3, 0, "FOO",
              none⟩ ((some 1 : Option ℕ).getD 1)).2)) ∧
    (satisfy_lots [Lot.mk 10 10 none "FOO" none 0] 4 "FOO" 1).2.2 =
      [Lot.mk 10 6 none "FOO" none 0] ∧
    push_lot [Lot.mk 10 6 none "FOO" none 0] 12 none "BAR" none 1 =
      .ok [Lot.mk 10 6 none "FOO" none 0, Lot.mk 12 12 none "BAR" none 1] := by
  refine ⟨C6_sell_spec ⟨"Assets:Binance", "Expenses:Binance:Commission"⟩
    [Lot.mk 10 10 none "FOO" none 0]
    ⟨1, some 1, "FOOBAR market sell", "FOO", "BAR", 4, 3, 0, "FOO", none⟩
    "FOO" "BAR" rfl rfl rfl (by norm_num), ?_, ?_⟩
  · norm_num [satisfy_lots, satisfyGo, eligible, mkFragment]
  · unfold push_lot
    rw [if_neg (by norm_num)]
    congr 1
    exact List.mergeSort_of_sorted
      (by simp [lotLE, List.pairwise_cons])

end BcBinance
